import Mathlib

/-!
Elon_FFI: the native boundary module `src/elon_ffi.c`.

A shallow embedding of the two exported functions `sum` and `sum_long_running`.

* `intptr_t` values are mathematical integers; the machine addition `+` on
  `intptr_t` is `intptr_add`, two's-complement wraparound at the width of the
  target (`Build.width`).
* The preprocessor conditionals `#ifdef DEBUG` and `#if _WIN32` are selected by
  the fields of `Build`.
* The blocking primitives `Sleep` and `usleep` are platform code outside the
  repository: each call is recorded in the delay log of the explicit `World`,
  and what the platform reports back is an input (`SleepOutcome`).
* Time is counted in microseconds of blocking: the time a call takes is the time its
  sleep requests keep the calling thread blocked (`elapsed_us`); the arithmetic and the
  return take no time, so every bound on it is a lower bound on the wall-clock time.
-/

namespace ElonFFI

/-! ## Build configuration -/

/-- Compile-time configuration of one build of `elon_ffi.c`. -/
structure Build where
  /-- The preprocessor symbol `DEBUG` is defined (tested by `#ifdef DEBUG`). -/
  DEBUG : Bool
  /-- The preprocessor symbol `_WIN32` evaluates to non-zero (tested by `#if _WIN32`). -/
  WIN32 : Bool
  /-- Number of bits of `intptr_t` on the target. -/
  width : Nat
  deriving DecidableEq

/-! ## The type `intptr_t` -/

/-- Smallest value of a signed integer of `w` bits. -/
def INTPTR_MIN (w : Nat) : Int := -(2 ^ (w - 1))

/-- Largest value of a signed integer of `w` bits. -/
def INTPTR_MAX (w : Nat) : Int := 2 ^ (w - 1) - 1

/-- The integer `x` is representable as a signed integer of `w` bits. -/
def InRange (w : Nat) (x : Int) : Prop := INTPTR_MIN w ≤ x ∧ x ≤ INTPTR_MAX w

instance instDecidableInRange (w : Nat) (x : Int) : Decidable (InRange w x) :=
  inferInstanceAs (Decidable (INTPTR_MIN w ≤ x ∧ x ≤ INTPTR_MAX w))

/-- Two's-complement reading of the low `w` bits of `x`. -/
def wrap (w : Nat) (x : Int) : Int :=
  let m := x % 2 ^ w
  if m < 2 ^ (w - 1) then m else m - 2 ^ w

/-- The operator `+` on two `intptr_t` operands of `w` bits. -/
def intptr_add (w : Nat) (x y : Int) : Int := wrap w (x + y)

/-! ## The platform's blocking primitives -/

/-- One call of a blocking sleep primitive, with the argument it was given. -/
inductive DelayRequest where
  /-- Windows `Sleep(dwMilliseconds)`. -/
  | Sleep (dwMilliseconds : Nat)
  /-- POSIX `usleep(usec)`. -/
  | usleep (usec : Nat)
  deriving DecidableEq

/-- Requested duration of a delay request, in microseconds. -/
def DelayRequest.microseconds : DelayRequest → Nat
  | .Sleep dwMilliseconds => dwMilliseconds * 1000
  | .usleep usec => usec

/-- Requested duration of a delay request, in whole milliseconds. -/
def DelayRequest.milliseconds (r : DelayRequest) : Nat := r.microseconds / 1000

/-- What the platform did with a sleep request. -/
inductive SleepOutcome where
  /-- The full delay elapsed. -/
  | completed
  /-- The sleep was woken early (a signal arrived). -/
  | interrupted
  deriving DecidableEq

/-- State outside the module that a call can affect: the delay requests issued so far,
oldest first. -/
structure World where
  delayLog : List DelayRequest
  deriving DecidableEq

/-- Windows `Sleep`: records the request; it returns `void`. -/
def Sleep (_o : SleepOutcome) (dwMilliseconds : Nat) (s : World) : Unit × World :=
  ((), { s with delayLog := s.delayLog ++ [DelayRequest.Sleep dwMilliseconds] })

/-- POSIX `usleep`: records the request; it returns `0` when the delay completed and
`-1` when it was interrupted. -/
def usleep (o : SleepOutcome) (usec : Nat) (s : World) : Int × World :=
  (match o with
    | .completed => 0
    | .interrupted => -1,
   { s with delayLog := s.delayLog ++ [DelayRequest.usleep usec] })

/-! ## The exported functions -/

/-- Embedding of `intptr_t sum(intptr_t a, intptr_t b)`:
`return a + b + 1000;` under `#ifdef DEBUG`, `return a + b;` otherwise. -/
def sum (B : Build) (a b : Int) (s : World) : Int × World :=
  if B.DEBUG then
    (intptr_add B.width (intptr_add B.width a b) 1000, s)
  else
    (intptr_add B.width a b, s)

/-- Embedding of `intptr_t sum_long_running(intptr_t a, intptr_t b)`:
`Sleep(5000);` under `#if _WIN32`, `usleep(5000 * 1000);` otherwise, the value of
either call being discarded, then `return a + b;`. -/
def sum_long_running (B : Build) (o : SleepOutcome) (a b : Int) (s : World) : Int × World :=
  let s1 : World :=
    if B.WIN32 then (Sleep o 5000 s).2
    else (usleep o (5000 * 1000) s).2
  (intptr_add B.width a b, s1)

/-! ## Sequences of calls made by a host -/

/-- A call of one of the two entry points by the host; for `sum_long_running` it carries
what the platform will do with the sleep. -/
inductive Call where
  | sum (a b : Int)
  | sum_long_running (o : SleepOutcome) (a b : Int)
  deriving DecidableEq

/-- Performs one call. -/
def exec (B : Build) : Call → World → Int × World
  | .sum a b, s => sum B a b s
  | .sum_long_running o a b, s => sum_long_running B o a b s

/-- Performs the calls in order; returns the values they returned and the final world. -/
def run (B : Build) : List Call → World → List Int × World
  | [], s => ([], s)
  | c :: cs, s =>
    let r := exec B c s
    let rest := run B cs r.2
    (r.1 :: rest.1, rest.2)

/-! ## Time spent blocked -/

theorem two_pow_pred_double (w : Nat) (hw : 0 < w) :
    (2 : Int) ^ w = 2 * 2 ^ (w - 1) := by
  obtain ⟨k, rfl⟩ : ∃ k, w = k + 1 := ⟨w - 1, by omega⟩
  simp [pow_succ, mul_comm]

theorem two_pow_pos_int (w : Nat) : (0 : Int) < 2 ^ w := by positivity

/-- The wrapped value is representable. -/
theorem wrap_inRange (w : Nat) (hw : 0 < w) (x : Int) : InRange w (wrap w x) := by
  have h2 := two_pow_pred_double w hw
  have hpos := two_pow_pos_int w
  have hlo : 0 ≤ x % 2 ^ w := Int.emod_nonneg x (ne_of_gt hpos)
  have hhi : x % 2 ^ w < 2 ^ w := Int.emod_lt_of_pos x hpos
  unfold InRange INTPTR_MIN INTPTR_MAX wrap
  simp only
  split_ifs with h
  · constructor <;> omega
  · constructor <;> omega

/-- The wrapped value is congruent to the exact one modulo `2 ^ w`. -/
theorem wrap_modEq (w : Nat) (x : Int) : wrap w x ≡ x [ZMOD 2 ^ w] := by
  unfold wrap
  simp only
  split_ifs with h
  · exact Int.mod_modEq x (2 ^ w)
  · have h1 : x % 2 ^ w - 2 ^ w ≡ x % 2 ^ w [ZMOD 2 ^ w] := by
      simp [Int.ModEq]
    exact h1.trans (Int.mod_modEq x (2 ^ w))

/-- Two representable values that are congruent modulo `2 ^ w` are equal. -/
theorem inRange_modEq_unique (w : Nat) (hw : 0 < w) (x y : Int)
    (hx : InRange w x) (hy : InRange w y) (h : x ≡ y [ZMOD 2 ^ w]) : x = y := by
  have h2 := two_pow_pred_double w hw
  have hd : (2 : Int) ^ w ∣ y - x := (Int.modEq_iff_dvd).1 h
  obtain ⟨k, hk⟩ := hd
  unfold InRange INTPTR_MIN INTPTR_MAX at hx hy
  have hpos := two_pow_pos_int (w - 1)
  have hk0 : k = 0 := by
    by_contra hne
    rcases lt_or_gt_of_ne hne with hlt | hgt
    · have : (2 : Int) ^ w * k ≤ 2 ^ w * (-1) :=
        mul_le_mul_of_nonneg_left (by omega) (by positivity)
      omega
    · have : (2 : Int) ^ w * 1 ≤ 2 ^ w * k :=
        mul_le_mul_of_nonneg_left (by omega) (by positivity)
      omega
  subst hk0
  omega

/-- A representable value is left unchanged by wrapping. -/
theorem wrap_eq_self (w : Nat) (hw : 0 < w) (x : Int) (hx : InRange w x) : wrap w x = x :=
  inRange_modEq_unique w hw (wrap w x) x (wrap_inRange w hw x) hx (wrap_modEq w x)

/-- Machine addition is congruent to exact addition. -/
theorem intptr_add_modEq (w : Nat) (x y : Int) : intptr_add w x y ≡ x + y [ZMOD 2 ^ w] :=
  wrap_modEq w (x + y)

/-- Machine addition yields a representable value. -/
theorem intptr_add_inRange (w : Nat) (hw : 0 < w) (x y : Int) : InRange w (intptr_add w x y) :=
  wrap_inRange w hw (x + y)

/-- Two machine additions in a row are congruent to the exact sum of the three operands. -/
theorem intptr_add_add_modEq (w : Nat) (x y z : Int) :
    intptr_add w (intptr_add w x y) z ≡ x + y + z [ZMOD 2 ^ w] :=
  (intptr_add_modEq w (intptr_add w x y) z).trans ((intptr_add_modEq w x y).add_right z)

/-- The native widths are positive. -/
theorem native_width_pos (w : Nat) (hw : w = 32 ∨ w = 64) : 0 < w := by omega

/-- At a native width `1000` is not a multiple of `2 ^ w`. -/
theorem offset_not_modEq_zero (w : Nat) (hw : w = 32 ∨ w = 64) :
    ¬ ((1000 : Int) ≡ 0 [ZMOD 2 ^ w]) := by
  rcases hw with rfl | rfl <;> decide

/-! ## The return value of `sum` -/

/-- C1: in the release build (`DEBUG` not defined), at a native width `w` (32 or 64), the
value returned by `sum(a, b)` lies in the signed range `[-2^(w-1), 2^(w-1))` and is congruent
to `a + b` modulo `2^w`; when `a + b` itself is representable the value is exactly `a + b`. -/
theorem sum_release_wraps (w : Nat) (hw : w = 32 ∨ w = 64) (win : Bool) (a b : Int)
    (s : World) :
    InRange w (sum ⟨false, win, w⟩ a b s).1 ∧
    (sum ⟨false, win, w⟩ a b s).1 ≡ a + b [ZMOD 2 ^ w] ∧
    (InRange w (a + b) → (sum ⟨false, win, w⟩ a b s).1 = a + b) := by
  have hpos := native_width_pos w hw
  refine ⟨intptr_add_inRange w hpos a b, intptr_add_modEq w a b, fun h => ?_⟩
  exact wrap_eq_self w hpos (a + b) h

theorem sum_release_wraps_witness :
    ((32 : Nat) = 32 ∨ (32 : Nat) = 64) ∧
    (InRange 32 (sum ⟨false, false, 32⟩ 2147483647 1 ⟨[]⟩).1 ∧
     (sum ⟨false, false, 32⟩ 2147483647 1 ⟨[]⟩).1 ≡ 2147483647 + 1 [ZMOD 2 ^ 32] ∧
     (InRange 32 (2147483647 + 1) →
       (sum ⟨false, false, 32⟩ 2147483647 1 ⟨[]⟩).1 = 2147483647 + 1)) :=
  ⟨Or.inl rfl, sum_release_wraps 32 (Or.inl rfl) false 2147483647 1 ⟨[]⟩⟩

/-- C2: in the debug build (`DEBUG` defined), at a native width `w` (32 or 64), the value
returned by `sum(a, b)` lies in the signed range `[-2^(w-1), 2^(w-1))` and is congruent to
`a + b + 1000` modulo `2^w`; when `a + b + 1000` itself is representable the value is exactly
`a + b + 1000`. -/
theorem sum_debug_wraps (w : Nat) (hw : w = 32 ∨ w = 64) (win : Bool) (a b : Int)
    (s : World) :
    InRange w (sum ⟨true, win, w⟩ a b s).1 ∧
    (sum ⟨true, win, w⟩ a b s).1 ≡ a + b + 1000 [ZMOD 2 ^ w] ∧
    (InRange w (a + b + 1000) → (sum ⟨true, win, w⟩ a b s).1 = a + b + 1000) := by
  have hpos := native_width_pos w hw
  have hr : InRange w (intptr_add w (intptr_add w a b) 1000) :=
    intptr_add_inRange w hpos (intptr_add w a b) 1000
  have hm := intptr_add_add_modEq w a b 1000
  exact ⟨hr, hm, fun h => inRange_modEq_unique w hpos _ _ hr h hm⟩

theorem sum_debug_wraps_witness :
    ((64 : Nat) = 32 ∨ (64 : Nat) = 64) ∧
    (InRange 64 (sum ⟨true, false, 64⟩ 2 3 ⟨[]⟩).1 ∧
     (sum ⟨true, false, 64⟩ 2 3 ⟨[]⟩).1 ≡ 2 + 3 + 1000 [ZMOD 2 ^ 64] ∧
     (InRange 64 (2 + 3 + 1000) → (sum ⟨true, false, 64⟩ 2 3 ⟨[]⟩).1 = 2 + 3 + 1000)) :=
  ⟨Or.inr rfl, sum_debug_wraps 64 (Or.inr rfl) false 2 3 ⟨[]⟩⟩

/-! ## The return value of `sum_long_running` -/

/-- C3: at a native width `w` (32 or 64), on the Windows and on the other code path, in the
debug and in the release build, and whatever the sleep did, the value returned by
`sum_long_running(a, b)` lies in the signed range and is congruent to `a + b` modulo `2^w`
(exactly `a + b` when that is representable); it is never congruent to `a + b + 1000`, so
the debug offset is not applied. -/
theorem sum_long_running_value (w : Nat) (hw : w = 32 ∨ w = 64) (dbg win : Bool)
    (o : SleepOutcome) (a b : Int) (s : World) :
    InRange w (sum_long_running ⟨dbg, win, w⟩ o a b s).1 ∧
    (sum_long_running ⟨dbg, win, w⟩ o a b s).1 ≡ a + b [ZMOD 2 ^ w] ∧
    (InRange w (a + b) → (sum_long_running ⟨dbg, win, w⟩ o a b s).1 = a + b) ∧
    ¬ ((sum_long_running ⟨dbg, win, w⟩ o a b s).1 ≡ a + b + 1000 [ZMOD 2 ^ w]) := by
  have hpos := native_width_pos w hw
  have hm : intptr_add w a b ≡ a + b [ZMOD 2 ^ w] := intptr_add_modEq w a b
  refine ⟨intptr_add_inRange w hpos a b, hm, fun h => wrap_eq_self w hpos (a + b) h, ?_⟩
  intro hoff
  apply offset_not_modEq_zero w hw
  have h1 : a + b + 1000 ≡ a + b + 0 [ZMOD 2 ^ w] := by
    simpa using hoff.symm.trans hm
  exact Int.ModEq.add_left_cancel (Int.ModEq.refl (a + b)) h1

theorem sum_long_running_value_witness :
    ((32 : Nat) = 32 ∨ (32 : Nat) = 64) ∧
    (InRange 32 (sum_long_running ⟨true, true, 32⟩ .interrupted 7 (-9) ⟨[]⟩).1 ∧
     (sum_long_running ⟨true, true, 32⟩ .interrupted 7 (-9) ⟨[]⟩).1 ≡ 7 + (-9) [ZMOD 2 ^ 32] ∧
     (InRange 32 (7 + (-9)) →
       (sum_long_running ⟨true, true, 32⟩ .interrupted 7 (-9) ⟨[]⟩).1 = 7 + (-9)) ∧
     ¬ ((sum_long_running ⟨true, true, 32⟩ .interrupted 7 (-9) ⟨[]⟩).1
          ≡ 7 + (-9) + 1000 [ZMOD 2 ^ 32])) :=
  ⟨Or.inl rfl, sum_long_running_value 32 (Or.inl rfl) true true .interrupted 7 (-9) ⟨[]⟩⟩

/-! ## The boundary case `sum(INT_MAX, 1)` -/

/-- C4, counterexample: in the 32-bit debug build `sum(INT_MAX, 1)` returns
`INT_MIN + 1000 = -2147482648`, which is not `INT_MIN`. -/
theorem sum_debug_int_max_one_ne_int_min :
    (sum ⟨true, false, 32⟩ (INTPTR_MAX 32) 1 ⟨[]⟩).1 = -2147482648 ∧
    (sum ⟨true, false, 32⟩ (INTPTR_MAX 32) 1 ⟨[]⟩).1 ≠ INTPTR_MIN 32 := by
  decide

/-- C4, amended: at a native width `w` (32 or 64) `sum(INT_MAX, 1)` returns a representable
value in both build variants: `INT_MIN` in the release build and `INT_MIN + 1000` in the
debug build. -/
theorem sum_int_max_one (w : Nat) (hw : w = 32 ∨ w = 64) (win : Bool) (s : World) :
    (sum ⟨false, win, w⟩ (INTPTR_MAX w) 1 s).1 = INTPTR_MIN w ∧
    (sum ⟨true, win, w⟩ (INTPTR_MAX w) 1 s).1 = INTPTR_MIN w + 1000 ∧
    InRange w (sum ⟨false, win, w⟩ (INTPTR_MAX w) 1 s).1 ∧
    InRange w (sum ⟨true, win, w⟩ (INTPTR_MAX w) 1 s).1 := by
  have hpos := native_width_pos w hw
  refine ⟨?_, ?_, intptr_add_inRange w hpos _ _,
    intptr_add_inRange w hpos (intptr_add w (INTPTR_MAX w) 1) 1000⟩
  · show intptr_add w (INTPTR_MAX w) 1 = INTPTR_MIN w
    rcases hw with rfl | rfl <;> decide
  · show intptr_add w (intptr_add w (INTPTR_MAX w) 1) 1000 = INTPTR_MIN w + 1000
    rcases hw with rfl | rfl <;> decide

theorem sum_int_max_one_witness :
    ((32 : Nat) = 32 ∨ (32 : Nat) = 64) ∧
    ((sum ⟨false, true, 32⟩ (INTPTR_MAX 32) 1 ⟨[]⟩).1 = INTPTR_MIN 32 ∧
     (sum ⟨true, true, 32⟩ (INTPTR_MAX 32) 1 ⟨[]⟩).1 = INTPTR_MIN 32 + 1000 ∧
     InRange 32 (sum ⟨false, true, 32⟩ (INTPTR_MAX 32) 1 ⟨[]⟩).1 ∧
     InRange 32 (sum ⟨true, true, 32⟩ (INTPTR_MAX 32) 1 ⟨[]⟩).1) :=
  ⟨Or.inl rfl, sum_int_max_one 32 (Or.inl rfl) true ⟨[]⟩⟩

/-! ## The delay issued by `sum_long_running` -/

/-- C5: every call `sum_long_running(a, b)` returns in a world whose delay log is the log at
entry followed by exactly one request. The request is `Sleep(5000)` on Windows and
`usleep(5000000)` elsewhere, in both cases 5000 milliseconds, whatever `a`, `b`, the build
variant and the outcome of the sleep; and the value is returned in the world the sleep
primitive left, so the request precedes the return. -/
theorem sum_long_running_delay (B : Build) (o : SleepOutcome) (a b : Int) (s : World) :
    ∃ r : DelayRequest,
      (sum_long_running B o a b s).2.delayLog = s.delayLog ++ [r] ∧
      r = (if B.WIN32 then DelayRequest.Sleep 5000 else DelayRequest.usleep 5000000) ∧
      r.milliseconds = 5000 ∧ r.microseconds = 5000000 ∧
      (sum_long_running B o a b s).2 =
        (if B.WIN32 then (Sleep o 5000 s).2 else (usleep o 5000000 s).2) := by
  cases hB : B.WIN32
  · exact ⟨DelayRequest.usleep 5000000, by simp [sum_long_running, usleep, hB], by simp,
      by decide, by decide, by simp [sum_long_running, hB]⟩
  · exact ⟨DelayRequest.Sleep 5000, by simp [sum_long_running, Sleep, hB], by simp,
      by decide, by decide, by simp [sum_long_running, hB]⟩

/-- C6: whatever the sleep primitive reports (completed or interrupted), a call
`sum_long_running(a, b)` issues exactly one sleep request (the log grows by one entry, there
is no retry), and it returns the same value, in the same world, as when the sleep completed:
a value congruent to `a + b` modulo `2^width`, never an error. -/
theorem sum_long_running_ignores_outcome (B : Build) (o : SleepOutcome) (a b : Int)
    (s : World) :
    (sum_long_running B o a b s).2.delayLog.length = s.delayLog.length + 1 ∧
    sum_long_running B o a b s = sum_long_running B SleepOutcome.completed a b s ∧
    (sum_long_running B o a b s).1 ≡ a + b [ZMOD 2 ^ B.width] := by
  refine ⟨?_, ?_, intptr_add_modEq B.width a b⟩
  · cases hB : B.WIN32 <;> simp [sum_long_running, Sleep, usleep, hB]
  · cases hB : B.WIN32 <;> simp [sum_long_running, Sleep, usleep, hB]

/-! ## `sum` has no effect -/

/-- C7: in both build variants and for every `a`, `b`, a call `sum(a, b)` returns in the
world it was called in: the delay log, the only modelled state, is unchanged and no sleep
request is issued. -/
theorem sum_no_effect (B : Build) (a b : Int) (s : World) :
    (sum B a b s).2 = s ∧ (sum B a b s).2.delayLog = s.delayLog := by
  cases hB : B.DEBUG <;> simp [sum, hB]

/-! ## Debug against release -/

/-- C8: at a native width `w` (32 or 64), for all `a`, `b`, the value `sum(a, b)` returns in
the debug build differs from the value it returns in the release build, and the debug value
minus the release value is congruent to `1000` modulo `2^w`. -/
theorem sum_debug_release_differ (w : Nat) (hw : w = 32 ∨ w = 64) (win1 win2 : Bool)
    (a b : Int) (s1 s2 : World) :
    (sum ⟨true, win1, w⟩ a b s1).1 ≠ (sum ⟨false, win2, w⟩ a b s2).1 ∧
    (sum ⟨true, win1, w⟩ a b s1).1 - (sum ⟨false, win2, w⟩ a b s2).1
      ≡ 1000 [ZMOD 2 ^ w] := by
  have hd : (sum ⟨true, win1, w⟩ a b s1).1 ≡ a + b + 1000 [ZMOD 2 ^ w] :=
    intptr_add_add_modEq w a b 1000
  have hr : (sum ⟨false, win2, w⟩ a b s2).1 ≡ a + b [ZMOD 2 ^ w] :=
    intptr_add_modEq w a b
  have hsub : (sum ⟨true, win1, w⟩ a b s1).1 - (sum ⟨false, win2, w⟩ a b s2).1
      ≡ 1000 [ZMOD 2 ^ w] := by
    have h := hd.sub hr
    simpa using h
  refine ⟨fun heq => ?_, hsub⟩
  apply offset_not_modEq_zero w hw
  rw [heq, sub_self] at hsub
  exact hsub.symm

theorem sum_debug_release_differ_witness :
    ((64 : Nat) = 32 ∨ (64 : Nat) = 64) ∧
    ((sum ⟨true, false, 64⟩ 9223372036854775807 1 ⟨[]⟩).1
        ≠ (sum ⟨false, false, 64⟩ 9223372036854775807 1 ⟨[]⟩).1 ∧
     (sum ⟨true, false, 64⟩ 9223372036854775807 1 ⟨[]⟩).1
        - (sum ⟨false, false, 64⟩ 9223372036854775807 1 ⟨[]⟩).1 ≡ 1000 [ZMOD 2 ^ 64]) :=
  ⟨Or.inr rfl,
    sum_debug_release_differ 64 (Or.inr rfl) false false 9223372036854775807 1 ⟨[]⟩ ⟨[]⟩⟩

/-! ## Totality -/

/-- C9: at a native width `w` (32 or 64), for every `a`, `b` (overflowing pairs included),
every build variant and every outcome of the sleep, `sum(a, b)` and
`sum_long_running(a, b)` each return a value, and that value lies in the signed range
`[-2^(w-1), 2^(w-1))`. -/
theorem entry_points_total (w : Nat) (hw : w = 32 ∨ w = 64) (dbg win : Bool)
    (o : SleepOutcome) (a b : Int) (s : World) :
    (∃ r s1, sum ⟨dbg, win, w⟩ a b s = (r, s1) ∧ InRange w r) ∧
    (∃ r s1, sum_long_running ⟨dbg, win, w⟩ o a b s = (r, s1) ∧ InRange w r) := by
  have hpos := native_width_pos w hw
  constructor
  · cases dbg
    · exact ⟨_, _, rfl, intptr_add_inRange w hpos a b⟩
    · exact ⟨_, _, rfl, intptr_add_inRange w hpos (intptr_add w a b) 1000⟩
  · exact ⟨_, _, rfl, intptr_add_inRange w hpos a b⟩

theorem entry_points_total_witness :
    ((32 : Nat) = 32 ∨ (32 : Nat) = 64) ∧
    ((∃ r s1, sum ⟨true, false, 32⟩ 2147483647 2147483647 ⟨[]⟩ = (r, s1) ∧ InRange 32 r) ∧
     (∃ r s1, sum_long_running ⟨true, false, 32⟩ .interrupted 2147483647 2147483647 ⟨[]⟩
        = (r, s1) ∧ InRange 32 r)) :=
  ⟨Or.inl rfl,
    entry_points_total 32 (Or.inl rfl) true false .interrupted 2147483647 2147483647 ⟨[]⟩⟩

/-! ## Independence of calls -/

/-- The value `sum` returns does not depend on the world it is called in. -/
theorem sum_value_world_irrelevant (B : Build) (a b : Int) (s1 s2 : World) :
    (sum B a b s1).1 = (sum B a b s2).1 := by
  cases hB : B.DEBUG <;> simp [sum, hB]

/-- The value a call returns does not depend on the world it is made in. -/
theorem exec_value_world_irrelevant (B : Build) (c : Call) (s1 s2 : World) :
    (exec B c s1).1 = (exec B c s2).1 := by
  cases c with
  | sum a b => exact sum_value_world_irrelevant B a b s1 s2
  | sum_long_running o a b => rfl

/-- The values returned along a sequence of calls are those of the calls made one by one,
each in a world of its own. -/
theorem run_values (B : Build) (cs : List Call) (s s0 : World) :
    (run B cs s).1 = cs.map (fun c => (exec B c s0).1) := by
  induction cs generalizing s with
  | nil => rfl
  | cons c cs ih =>
    simp only [run, List.map_cons]
    rw [ih (exec B c s).2, exec_value_world_irrelevant B c s s0]

/-- C10: the value returned by `sum(a, b)`, and by `sum_long_running(a, b)`, is the same after
any two histories of earlier calls (any argument pairs, any sleep outcomes, any starting
worlds) and for any outcome of its own sleep: it depends on `a`, `b` and the build alone.
Accordingly the values returned along any sequence of calls are those the calls return when
made one by one in a fixed world. -/
theorem call_value_independent_of_history (B : Build) (pre1 pre2 : List Call)
    (s1 s2 s0 : World) (o1 o2 : SleepOutcome) (a b : Int) :
    (exec B (Call.sum a b) (run B pre1 s1).2).1
      = (exec B (Call.sum a b) (run B pre2 s2).2).1 ∧
    (exec B (Call.sum_long_running o1 a b) (run B pre1 s1).2).1
      = (exec B (Call.sum_long_running o2 a b) (run B pre2 s2).2).1 ∧
    (run B pre1 s1).1 = pre1.map (fun c => (exec B c s0).1) :=
  ⟨sum_value_world_irrelevant B a b _ _, rfl, run_values B pre1 s1 s0⟩

/-! ## Order of wrap and offset in the debug build -/

/-- Wrapping depends only on the residue modulo `2 ^ w`. -/
theorem wrap_congr (w : Nat) (x y : Int) (h : x ≡ y [ZMOD 2 ^ w]) : wrap w x = wrap w y := by
  have hxy : x % 2 ^ w = y % 2 ^ w := h
  unfold wrap
  rw [hxy]

/-- C12: in the debug build, at a native width `w` (32 or 64), `sum(a, b)` is
`wrap(wrap(a + b) + 1000)`: the sum is wrapped first and the offset added after. That value
equals the exact integer `a + b + 1000` wrapped once, and also `a + wrap(b + 1000)` wrapped,
so the order of overflow and offset does not change the result. In particular debug
`sum(INT_MAX, 1)` is `INT_MIN + 1000`. -/
theorem sum_debug_offset_after_wrap (w : Nat) (hw : w = 32 ∨ w = 64) (win : Bool)
    (a b : Int) (s : World) :
    (sum ⟨true, win, w⟩ a b s).1 = wrap w (wrap w (a + b) + 1000) ∧
    wrap w (wrap w (a + b) + 1000) = wrap w (a + b + 1000) ∧
    wrap w (a + wrap w (b + 1000)) = wrap w (a + b + 1000) ∧
    (sum ⟨true, win, w⟩ (INTPTR_MAX w) 1 s).1 = INTPTR_MIN w + 1000 := by
  refine ⟨rfl, ?_, ?_, ?_⟩
  · exact wrap_congr w _ _ ((wrap_modEq w (a + b)).add_right 1000)
  · apply wrap_congr
    have h := (wrap_modEq w (b + 1000)).add_left a
    simpa [add_assoc] using h
  · show intptr_add w (intptr_add w (INTPTR_MAX w) 1) 1000 = INTPTR_MIN w + 1000
    rcases hw with rfl | rfl <;> decide

theorem sum_debug_offset_after_wrap_witness :
    ((32 : Nat) = 32 ∨ (32 : Nat) = 64) ∧
    ((sum ⟨true, false, 32⟩ 2147483000 700 ⟨[]⟩).1
        = wrap 32 (wrap 32 (2147483000 + 700) + 1000) ∧
     wrap 32 (wrap 32 (2147483000 + 700) + 1000) = wrap 32 (2147483000 + 700 + 1000) ∧
     wrap 32 (2147483000 + wrap 32 (700 + 1000)) = wrap 32 (2147483000 + 700 + 1000) ∧
     (sum ⟨true, false, 32⟩ (INTPTR_MAX 32) 1 ⟨[]⟩).1 = INTPTR_MIN 32 + 1000) :=
  ⟨Or.inl rfl, sum_debug_offset_after_wrap 32 (Or.inl rfl) false 2147483000 700 ⟨[]⟩⟩

/-! ## `sum` against `sum_long_running` -/

/-- C13: at a native width `w` (32 or 64), for all `a`, `b` and whatever the sleep did: in
the release build `sum(a, b)` and `sum_long_running(a, b)` return the same value; in the
debug build `sum(a, b)` is `sum_long_running(a, b) + 1000` wrapped, congruent to it modulo
`2^w`, and the two values are never equal. -/
theorem sum_vs_sum_long_running (w : Nat) (hw : w = 32 ∨ w = 64) (win : Bool)
    (o : SleepOutcome) (a b : Int) (s1 s2 : World) :
    (sum ⟨false, win, w⟩ a b s1).1 = (sum_long_running ⟨false, win, w⟩ o a b s2).1 ∧
    (sum ⟨true, win, w⟩ a b s1).1
      = wrap w ((sum_long_running ⟨true, win, w⟩ o a b s2).1 + 1000) ∧
    (sum ⟨true, win, w⟩ a b s1).1
      ≡ (sum_long_running ⟨true, win, w⟩ o a b s2).1 + 1000 [ZMOD 2 ^ w] ∧
    (sum ⟨true, win, w⟩ a b s1).1 ≠ (sum_long_running ⟨true, win, w⟩ o a b s2).1 := by
  have hm : (sum ⟨true, win, w⟩ a b s1).1
      ≡ (sum_long_running ⟨true, win, w⟩ o a b s2).1 + 1000 [ZMOD 2 ^ w] :=
    intptr_add_modEq w (intptr_add w a b) 1000
  refine ⟨rfl, rfl, hm, fun heq => ?_⟩
  apply offset_not_modEq_zero w hw
  rw [heq] at hm
  have h0 : (sum_long_running ⟨true, win, w⟩ o a b s2).1 + 1000
      ≡ (sum_long_running ⟨true, win, w⟩ o a b s2).1 + 0 [ZMOD 2 ^ w] := by
    simpa using hm.symm
  exact Int.ModEq.add_left_cancel (Int.ModEq.refl _) h0

theorem sum_vs_sum_long_running_witness :
    ((64 : Nat) = 32 ∨ (64 : Nat) = 64) ∧
    ((sum ⟨false, false, 64⟩ 40 2 ⟨[]⟩).1
        = (sum_long_running ⟨false, false, 64⟩ .completed 40 2 ⟨[]⟩).1 ∧
     (sum ⟨true, false, 64⟩ 40 2 ⟨[]⟩).1
        = wrap 64 ((sum_long_running ⟨true, false, 64⟩ .completed 40 2 ⟨[]⟩).1 + 1000) ∧
     (sum ⟨true, false, 64⟩ 40 2 ⟨[]⟩).1
        ≡ (sum_long_running ⟨true, false, 64⟩ .completed 40 2 ⟨[]⟩).1 + 1000 [ZMOD 2 ^ 64] ∧
     (sum ⟨true, false, 64⟩ 40 2 ⟨[]⟩).1
        ≠ (sum_long_running ⟨true, false, 64⟩ .completed 40 2 ⟨[]⟩).1) :=
  ⟨Or.inr rfl, sum_vs_sum_long_running 64 (Or.inr rfl) false .completed 40 2 ⟨[]⟩ ⟨[]⟩⟩

/-! ## Argument order -/

/-- C14: for every build, all `a`, `b` (overflowing pairs included) and any outcome of the
sleep, `sum(a, b)` and `sum(b, a)` return the same value in the same world, and so do
`sum_long_running(a, b)` and `sum_long_running(b, a)`. -/
theorem entry_points_comm (B : Build) (o : SleepOutcome) (a b : Int) (s : World) :
    sum B a b s = sum B b a s ∧
    sum_long_running B o a b s = sum_long_running B o b a s := by
  constructor
  · simp only [sum, intptr_add, Int.add_comm a b]
  · simp only [sum_long_running, intptr_add, Int.add_comm a b]

/-! ## Time taken by `sum_long_running` -/

end ElonFFI
